import Mathlib

/-!
# jevents event cache (`jevents/cache.c`)

A shallow embedding of the caching layer that resolves named performance
counter events: the process-wide `eventlist`, its (re)population through
`json_events`/`collect_events`, its teardown, and the query operations
`resolve_event`, `walk_events` and `rmap_event`.

Conventions of the embedding.

* A C string (`char *`) is the list of its bytes before the terminating NUL.
* `int` results are `Int`; `unsigned` values are `Nat` reduced modulo `2 ^ 32`
  where the C arithmetic can wrap.
* The singly linked list rooted at `eventlist` is a `List event`, head first;
  the `next` pointer is the list structure itself.
* The global state is passed explicitly as a `World`.  Besides `eventlist`
  it carries two ghost components: the multiset of live heap blocks, and the
  trace of calls made to the external collaborators (`json_events`,
  `jevent_name_to_attr`, the visitor given to `walk_events`).
-/

set_option autoImplicit false
set_option linter.dupNamespace false
set_option linter.unusedVariables false

namespace Jevents

/-! ## Strings and the libc routines used by the cache -/

/-- C string: the bytes before the terminating NUL. -/
abbrev CStr := List Nat

/-- Bytes of a string literal (one byte per ASCII character). -/
def cstr (s : String) : CStr := s.toList.map Char.toNat

/-- The libc `tolower` in the C locale: `A`..`Z` go to `a`..`z`. -/
def tolower (c : Nat) : Nat := if 65 ≤ c ∧ c ≤ 90 then c + 32 else c

/-- The libc `strcasecmp`: compares byte by byte after `tolower`; the result
is 0 when the strings agree, negative or positive according to the first
pair of bytes that differ (POSIX fixes only the sign, the model returns
`-1` and `1`). -/
def strcasecmp : CStr → CStr → Int
  | [], [] => 0
  | [], _ :: _ => -1
  | _ :: _, [] => 1
  | a :: as, b :: bs =>
    if tolower a = tolower b then strcasecmp as bs
    else if tolower a < tolower b then -1 else 1

/-- The libc `strstr`: the tail of `haystack` that starts at the first
occurrence of `needle`, or `none` (NULL) when there is none. -/
def strstr : CStr → CStr → Option CStr
  | [], needle => if needle = [] then some [] else none
  | h :: t, needle =>
    if needle.isPrefixOf (h :: t) then some (h :: t) else strstr t needle

/-- The libc `isspace` in the C locale. -/
def isspace (c : Nat) : Bool := c = 32 ∨ (9 ≤ c ∧ c ≤ 13)

/-- Value of a hexadecimal digit byte, if it is one. -/
def hexval (c : Nat) : Option Nat :=
  if 48 ≤ c ∧ c ≤ 57 then some (c - 48)
  else if 97 ≤ c ∧ c ≤ 102 then some (c - 87)
  else if 65 ≤ c ∧ c ≤ 70 then some (c - 55)
  else none

/-- Accumulate the longest run of hexadecimal digits at the front of the
input; returns the value and the number of digits consumed. -/
def hexdigits : CStr → Nat → Nat → Nat × Nat
  | [], acc, n => (acc, n)
  | c :: cs, acc, n =>
    match hexval c with
    | some d => hexdigits cs (16 * acc + d) (n + 1)
    | none => (acc, n)

/-- Drop leading white space, as every `scanf` conversion but `%c` does. -/
def skipspace : CStr → CStr
  | [] => []
  | c :: cs => if isspace c then skipspace cs else c :: cs

/-- The `%x` conversion of `scanf` into an `unsigned`: optional white space,
optional sign, optional `0x`/`0X`, then hexadecimal digits.  `none` is a
matching failure (the target is left untouched).  As in glibc on LP64, the
digits are converted as an `unsigned long`: a value of `2 ^ 64` or more
saturates and is stored as `0xffffffff`; a smaller one is stored modulo
`2 ^ 32`, negated modulo `2 ^ 32` after a minus sign.  A bare `0x` converts
as the digit `0`. -/
def scan_x (s : CStr) : Option Nat :=
  let s1 := skipspace s
  let (neg, s2) : Bool × CStr :=
    match s1 with
    | 45 :: r => (true, r)
    | 43 :: r => (false, r)
    | r => (false, r)
  let (pre, s3) : Bool × CStr :=
    match s2 with
    | 48 :: 120 :: r => (true, r)
    | 48 :: 88 :: r => (true, r)
    | r => (false, r)
  let (v, n) := hexdigits s3 0 0
  if n = 0 ∧ pre = false then none
  else if 2 ^ 64 ≤ v then some (2 ^ 32 - 1)
  else
    let u := v % 2 ^ 32
    some (if neg then (2 ^ 32 - u) % 2 ^ 32 else u)

/-- The call `sscanf(s, "<lit>%x", &out)`: the literal part of the format
must match the input byte for byte, then `%x` converts. -/
def sscanf_x (s lit : CStr) : Option Nat :=
  if lit.isPrefixOf s then scan_x (s.drop lit.length) else none

/-! ## Data model -/

/-- The `struct event` of the source, without its `next` link. -/
structure event where
  name : CStr
  desc : CStr
  event : CStr
  deriving DecidableEq, Repr

/-- Heap blocks the cache allocates: a list node (`malloc`) or a string copy
(`strdup`). -/
inductive Block where
  | node : Block
  | str : CStr → Block
  deriving DecidableEq, Repr

/-- Calls to the external collaborators, in the order they are made. -/
inductive Call where
  | load : Option CStr → Call
  | encode : CStr → Call
  | visit : CStr → CStr → CStr → Call
  deriving DecidableEq, Repr

/-- Global state: `eventlist`, the live heap blocks and the call trace. -/
structure World where
  eventlist : List event
  heap : List Block
  trace : List Call
  deriving DecidableEq, Repr

/-- One run of the catalog loader: the `(name, event, desc)` triples it hands
to its callback, in order, and the status it returns afterwards. -/
structure LoaderRun where
  emitted : List (CStr × CStr × CStr)
  status : Int
  deriving DecidableEq, Repr

/-- Behaviour of the catalog loader for each source (`none` is NULL, the
default location). -/
abbrev Loader := Option CStr → LoaderRun

/-- Type of the callback handed to `json_events`. -/
abbrev Callback := CStr → CStr → CStr → World → Int × World

/-! ## The cache -/

/-- The callback `collect_events` of the source: allocate a node, link it in
front of `eventlist`, copy the three strings, return 0. -/
def collect_events (name ev desc : CStr) (w : World) : Int × World :=
  (0, { eventlist := { name := name, desc := desc, event := ev } :: w.eventlist,
        heap := Block.str ev :: Block.str desc :: Block.str name :: Block.node :: w.heap,
        trace := w.trace })

/-- The loop of `free_events`: one `free(e)` per list node. -/
def free_loop : List event → List Block → List Block
  | [], h => h
  | _ :: next, h => free_loop next (h.erase Block.node)

/-- The function `free_events` of the source. -/
def free_events (w : World) : World :=
  { eventlist := [], heap := free_loop w.eventlist w.heap, trace := w.trace }

/-- The enumeration loop of the catalog loader: call the callback on each
triple in turn; a non-zero callback status aborts and is returned. -/
def json_loop (func : Callback) : List (CStr × CStr × CStr) → Int → World → Int × World
  | [], status, w => (status, w)
  | (name, ev, desc) :: rest, status, w =>
    let r := func name ev desc w
    if r.1 ≠ 0 then r else json_loop func rest status r.2

/-- Modelled from the spec: `json_events` (the catalog loader, `jevents/json.c`)
is not part of the sources at hand.  It reads the catalog `fn` and invokes
the callback once per event definition with `(name, encoded form,
description)`, then returns its status. -/
def json_events (L : Loader) (fn : Option CStr) (func : Callback) (w : World) : Int × World :=
  json_loop func (L fn).emitted (L fn).status
    { eventlist := w.eventlist, heap := w.heap, trace := w.trace ++ [Call.load fn] }

/-- The function `read_events` of the source. -/
def read_events (L : Loader) (fn : Option CStr) (w : World) : Int × World :=
  json_events L fn collect_events (if w.eventlist ≠ [] then free_events w else w)

/-! ## Queries -/

/-- The external encoder `jevent_name_to_attr`: from the encoded form and the
caller's attribute buffer to a status and the buffer's new contents. -/
abbrev Encoder (α : Type) := CStr → α → Int × α

/-- A visitor for `walk_events`: `data` is threaded through as the state the
abstract data pointer refers to. -/
abbrev Visitor (δ : Type) := δ → CStr → CStr → CStr → Int × δ

/-- The search loop of `resolve_event` (source lines 124-129). -/
def resolve_loop {α : Type} (enc : Encoder α) (name : CStr) (attr : α) :
    List event → World → (Int × α) × World
  | [], w => ((-1, attr), w)
  | e :: next, w =>
    if strcasecmp e.name name = 0 then
      (enc e.event attr,
        { eventlist := w.eventlist, heap := w.heap,
          trace := w.trace ++ [Call.encode e.event] })
    else resolve_loop enc name attr next w

/-- The function `resolve_event` of the source: status and attribute buffer. -/
def resolve_event {α : Type} (L : Loader) (enc : Encoder α) (name : CStr) (attr : α)
    (w : World) : (Int × α) × World :=
  if w.eventlist = [] then
    let r := read_events L none w
    if r.1 < 0 then ((-1, attr), r.2)
    else resolve_loop enc name attr r.2.eventlist r.2
  else resolve_loop enc name attr w.eventlist w

/-- The enumeration loop of `walk_events` (source lines 152-157). -/
def walk_loop {δ : Type} (func : Visitor δ) : List event → δ → World → (Int × δ) × World
  | [], data, w => ((0, data), w)
  | e :: next, data, w =>
    let ret := func data e.name e.event e.desc
    let w1 : World :=
      { eventlist := w.eventlist, heap := w.heap,
        trace := w.trace ++ [Call.visit e.name e.event e.desc] }
    if ret.1 ≠ 0 then (ret, w1) else walk_loop func next ret.2 w1

/-- The function `walk_events` of the source: status and visitor data. -/
def walk_events {δ : Type} (L : Loader) (func : Visitor δ) (data : δ) (w : World) :
    (Int × δ) × World :=
  if w.eventlist = [] then
    let r := read_events L none w
    if r.1 < 0 then ((-1, data), r.2)
    else walk_loop func r.2.eventlist data r.2
  else walk_loop func w.eventlist data w

/-- The body of the loop of `rmap_event` up to its test (source lines 181-189).
As in the source, the locals `event` and `umask` start at 0, and the local
`event` hides the parameter of the same name in the comparison. -/
def rmap_match (event : Nat) (e : Jevents.event) : Bool :=
  let event : Nat := 0
  let umask : Nat := 0
  let event : Nat :=
    match strstr e.event (cstr "event=") with
    | some s => (sscanf_x s (cstr "event=")).getD event
    | none => event
  let umask : Nat :=
    match strstr e.event (cstr "umask=") with
    | some s => (sscanf_x s (cstr "umask=")).getD umask
    | none => umask
  decide ((event ||| (umask <<< 8) % 2 ^ 32) = (event &&& 0xffff))

/-- The search loop of `rmap_event`: status, `*name` and `*desc` as written
(`none` when left untouched; `desc` tells whether the pointer is non-NULL). -/
def rmap_loop (event : Nat) (desc : Bool) : List Jevents.event → Int × Option CStr × Option CStr
  | [] => (-1, none, none)
  | e :: next =>
    if rmap_match event e then (0, some e.name, if desc then some e.desc else none)
    else rmap_loop event desc next

/-- The function `rmap_event` of the source. -/
def rmap_event (L : Loader) (event : Nat) (desc : Bool) (w : World) :
    (Int × Option CStr × Option CStr) × World :=
  if w.eventlist = [] then
    let r := read_events L none w
    if r.1 < 0 then ((-1, none, none), r.2)
    else (rmap_loop event desc r.2.eventlist, r.2)
  else (rmap_loop event desc w.eventlist, w)

/-! ## Vocabulary of the specification -/

/-- Two names are equal ignoring ASCII letter case. -/
def eqIgnoreCase (a b : CStr) : Prop := a.map tolower = b.map tolower

instance (a b : CStr) : Decidable (eqIgnoreCase a b) := by
  unfold eqIgnoreCase; infer_instance

/-- The record a triple of the catalog becomes in the cache. -/
def toEvent (t : CStr × CStr × CStr) : event :=
  { name := t.1, desc := t.2.2, event := t.2.1 }

/-- The `(name, event, desc)` triple of a record, as the visitor receives it. -/
def tripleOf (e : event) : CStr × CStr × CStr := (e.name, e.event, e.desc)

/-- The call by which the visitor sees a record. -/
def visitOf (e : event) : Call := Call.visit e.name e.event e.desc

/-- Field extraction as the specification words it: the numeric value that
follows `key` in the encoded form, 0 when the field is absent. -/
def extract_field (key encoded : CStr) : Nat :=
  match strstr encoded key with
  | some s => (sscanf_x s key).getD 0
  | none => 0

/-- The combined code of a record as the specification words it:
`event | (umask << 8)`, masked to the low 16 bits. -/
def combined_code (e : event) : Nat :=
  (extract_field (cstr "event=") e.event
    ||| (extract_field (cstr "umask=") e.event <<< 8)) &&& 0xffff

/-- Sources of the loader invocations in a list of calls. -/
def loadsOf : List Call → List (Option CStr)
  | [] => []
  | Call.load fn :: rest => fn :: loadsOf rest
  | _ :: rest => loadsOf rest

/-- The calls made between an earlier state and a later one. -/
def callsSince (w w1 : World) : List Call := w1.trace.drop w.trace.length

/-- Triples handed to the visitor in a list of calls. -/
def visitsOf : List Call → List (CStr × CStr × CStr)
  | [] => []
  | Call.visit n e d :: rest => (n, e, d) :: visitsOf rest
  | _ :: rest => visitsOf rest

/-- The three query operations with their arguments. -/
inductive Query (α δ : Type) where
  | resolve : CStr → α → Query α δ
  | walk : Visitor δ → δ → Query α δ
  | rmap : Nat → Bool → Query α δ

/-- The state a query leaves behind. -/
def Query.stateAfter {α δ : Type} (L : Loader) (enc : Encoder α) : Query α δ → World → World
  | Query.resolve name attr, w => (resolve_event L enc name attr w).2
  | Query.walk func data, w => (walk_events L func data w).2
  | Query.rmap code desc, w => (rmap_event L code desc w).2

/-- Thread the visitor's data through a run of records on each of which the
visitor returns 0; `none` as soon as it returns something else. -/
def zeroRun {δ : Type} (func : Visitor δ) : List event → δ → Option δ
  | [], data => some data
  | e :: rest, data =>
    if (func data e.name e.event e.desc).1 = 0
    then zeroRun func rest (func data e.name e.event e.desc).2
    else none

/-- The heap blocks `collect_events` allocates for one record, latest first. -/
def blocksOf (e : event) : List Block :=
  [Block.str e.event, Block.str e.desc, Block.str e.name, Block.node]

/-- The string copies `collect_events` allocates for one record. -/
def stringsOf (e : event) : List Block :=
  [Block.str e.event, Block.str e.desc, Block.str e.name]

/-- The heap blocks live for a cache that `collect_events` built, in the
order of the cache. -/
def heapOf : List event → List Block
  | [] => []
  | e :: rest => blocksOf e ++ heapOf rest

/-- The string copies of a cache, in the order of the cache. -/
def leakOf : List event → List Block
  | [] => []
  | e :: rest => stringsOf e ++ leakOf rest

/-! ## Sample data -/

/-- The state before anything was loaded. -/
def emptyWorld : World := { eventlist := [], heap := [], trace := [] }

/-- A catalog of two events that loads successfully. -/
def demoCatalog : LoaderRun :=
  { emitted :=
      [(cstr "LONGEST_LAT_CACHE.MISS", cstr "cpu/event=0x2e,umask=0x41/",
          cstr "Misses in the last level cache"),
       (cstr "INST_RETIRED.ANY", cstr "cpu/event=0xc0,umask=0x1/",
          cstr "Instructions retired")],
    status := 0 }

/-- A loader that finds `demoCatalog` at every source. -/
def demoLoader : Loader := fun _ => demoCatalog

/-- The state after loading `demoCatalog` into the empty cache. -/
def demoWorld : World := (read_events demoLoader none emptyWorld).2

/-- An encoder that succeeds and stores the encoded form as the attribute. -/
def demoEncoder : Encoder CStr := fun s _ => (0, s)

/-- A visitor that never aborts and counts its invocations. -/
def countVisitor : Visitor Nat := fun n _ _ _ => (0, n + 1)

/-- A load that yields one record and then fails. -/
def failingCatalog : LoaderRun :=
  { emitted := [(cstr "INST_RETIRED.ANY", cstr "cpu/event=0xc0,umask=0x1/",
      cstr "Instructions retired")],
    status := -1 }

/-- A loader whose every run is `failingCatalog`. -/
def failingLoader : Loader := fun _ => failingCatalog

/-- A catalog without events that loads successfully (the JSON array `[]`). -/
def emptyCatalog : LoaderRun := { emitted := [], status := 0 }

/-- A loader that finds `emptyCatalog` at every source. -/
def emptyLoader : Loader := fun _ => emptyCatalog

/-- A loader that finds `demoCatalog` at the default location and
`emptyCatalog` in every named file. -/
def switchLoader : Loader := fun fn => if fn = none then demoCatalog else emptyCatalog

/-- A catalog with two events of the same name up to case. -/
def dupCatalog : LoaderRun :=
  { emitted :=
      [(cstr "BR_MISP_RETIRED.ALL", cstr "cpu/event=0xc5,umask=0x0/", cstr "emitted first"),
       (cstr "br_misp_retired.all", cstr "cpu/event=0xc5,umask=0x4/", cstr "emitted second")],
    status := 0 }

/-- A loader that finds `dupCatalog` at every source. -/
def dupLoader : Loader := fun _ => dupCatalog

/-- A catalog of three events that loads successfully. -/
def threeCatalog : LoaderRun :=
  { emitted :=
      [(cstr "LONGEST_LAT_CACHE.MISS", cstr "cpu/event=0x2e,umask=0x41/",
          cstr "Misses in the last level cache"),
       (cstr "INST_RETIRED.ANY", cstr "cpu/event=0xc0,umask=0x1/",
          cstr "Instructions retired"),
       (cstr "BR_INST_RETIRED.ALL_BRANCHES", cstr "cpu/event=0xc4,umask=0x0/",
          cstr "Branches retired")],
    status := 0 }

/-- A loader that finds `threeCatalog` at every source. -/
def threeLoader : Loader := fun _ => threeCatalog

/-- The state after loading `threeCatalog` into the empty cache. -/
def threeWorld : World := (read_events threeLoader none emptyWorld).2

/-- A cache holding one record whose umask field is 0. -/
def branchWorld : World :=
  { eventlist :=
      [{ name := cstr "BR_INST_RETIRED.ALL_BRANCHES", desc := cstr "Branches retired",
         event := cstr "cpu/event=0xc4,umask=0x0/" }],
    heap := [Block.str (cstr "cpu/event=0xc4,umask=0x0/"), Block.str (cstr "Branches retired"),
             Block.str (cstr "BR_INST_RETIRED.ALL_BRANCHES"), Block.node],
    trace := [Call.load none] }

/-- A visitor that counts its invocations and aborts with status 7 on the
invocation number `n`. -/
def stopAt (n : Nat) : Visitor Nat :=
  fun d _ _ _ => if d + 1 = n then (7, d + 1) else (0, d + 1)

/-- A cache holding the single record of the round-trip example. -/
def singleWorld : World :=
  { eventlist :=
      [{ name := cstr "LONGEST_LAT_CACHE.MISS", desc := cstr "Misses in the last level cache",
         event := cstr "cpu/event=0x2e,umask=0x41/" }],
    heap := [Block.str (cstr "cpu/event=0x2e,umask=0x41/"),
             Block.str (cstr "Misses in the last level cache"),
             Block.str (cstr "LONGEST_LAT_CACHE.MISS"), Block.node],
    trace := [Call.load none] }

/-! ## Basic facts about the libc routines -/

theorem strcasecmp_eq_zero_iff (a b : CStr) : strcasecmp a b = 0 ↔ eqIgnoreCase a b := by
  unfold eqIgnoreCase
  induction a generalizing b with
  | nil =>
    cases b with
    | nil => simp [strcasecmp]
    | cons y ys => simp [strcasecmp]
  | cons x xs ih =>
    cases b with
    | nil => simp [strcasecmp]
    | cons y ys =>
      by_cases hxy : tolower x = tolower y
      · simp [strcasecmp, hxy, ih]
      · by_cases hlt : tolower x < tolower y
        · simp [strcasecmp, hxy, hlt]
        · simp [strcasecmp, hxy, hlt]

theorem eqIgnoreCase_symm {a b : CStr} (h : eqIgnoreCase a b) : eqIgnoreCase b a := by
  unfold eqIgnoreCase at *
  exact h.symm

theorem eqIgnoreCase_trans {a b c : CStr} (h1 : eqIgnoreCase a b) (h2 : eqIgnoreCase b c) :
    eqIgnoreCase a c := by
  unfold eqIgnoreCase at *
  exact h1.trans h2

/-! ## Loading -/

theorem json_loop_collect_fst (ts : List (CStr × CStr × CStr)) (st : Int) (w : World) :
    (json_loop collect_events ts st w).1 = st := by
  induction ts generalizing w with
  | nil => rfl
  | cons t rest ih =>
    obtain ⟨n, e, d⟩ := t
    simp [json_loop, collect_events, ih]

theorem json_loop_collect_eventlist (ts : List (CStr × CStr × CStr)) (st : Int) (w : World) :
    (json_loop collect_events ts st w).2.eventlist
      = (ts.map toEvent).reverse ++ w.eventlist := by
  induction ts generalizing w with
  | nil => simp [json_loop]
  | cons t rest ih =>
    obtain ⟨n, e, d⟩ := t
    simp [json_loop, collect_events, ih, toEvent]

theorem json_loop_collect_trace (ts : List (CStr × CStr × CStr)) (st : Int) (w : World) :
    (json_loop collect_events ts st w).2.trace = w.trace := by
  induction ts generalizing w with
  | nil => rfl
  | cons t rest ih =>
    obtain ⟨n, e, d⟩ := t
    simp [json_loop, collect_events, ih]

theorem read_events_status (L : Loader) (fn : Option CStr) (w : World) :
    (read_events L fn w).1 = (L fn).status := by
  simp [read_events, json_events, json_loop_collect_fst]

theorem read_events_eventlist (L : Loader) (fn : Option CStr) (w : World) :
    (read_events L fn w).2.eventlist = ((L fn).emitted.map toEvent).reverse := by
  unfold read_events json_events
  rw [json_loop_collect_eventlist]
  by_cases h : w.eventlist = []
  · simp [h]
  · simp [h, free_events]

theorem read_events_trace (L : Loader) (fn : Option CStr) (w : World) :
    (read_events L fn w).2.trace = w.trace ++ [Call.load fn] := by
  unfold read_events json_events
  rw [json_loop_collect_trace]
  by_cases h : w.eventlist = []
  · simp [h]
  · simp [h, free_events]

/-! ## The loops of the queries -/

theorem resolve_loop_none {α : Type} (enc : Encoder α) (name : CStr) (attr : α)
    (l : List event) (w : World) (h : ∀ x ∈ l, ¬ eqIgnoreCase x.name name) :
    resolve_loop enc name attr l w = ((-1, attr), w) := by
  induction l with
  | nil => rfl
  | cons e next ih =>
    have he : ¬ strcasecmp e.name name = 0 := by
      rw [strcasecmp_eq_zero_iff]; exact h e (List.mem_cons_self _ _)
    simp only [resolve_loop, he, if_false]
    exact ih (fun x hx => h x (List.mem_cons_of_mem _ hx))

theorem resolve_loop_first {α : Type} (enc : Encoder α) (name : CStr) (attr : α)
    (pre : List event) (e : event) (post : List event) (w : World)
    (hpre : ∀ x ∈ pre, ¬ eqIgnoreCase x.name name) (he : eqIgnoreCase e.name name) :
    resolve_loop enc name attr (pre ++ e :: post) w
      = (enc e.event attr,
          { eventlist := w.eventlist, heap := w.heap,
            trace := w.trace ++ [Call.encode e.event] }) := by
  induction pre with
  | nil =>
    have h0 : strcasecmp e.name name = 0 := (strcasecmp_eq_zero_iff _ _).2 he
    simp [resolve_loop, h0]
  | cons x rest ih =>
    have hx : ¬ strcasecmp x.name name = 0 := by
      rw [strcasecmp_eq_zero_iff]; exact hpre x (List.mem_cons_self _ _)
    simp only [List.cons_append, resolve_loop, hx, if_false]
    exact ih (fun y hy => hpre y (List.mem_cons_of_mem _ hy))

/-- A list with an element satisfying a property splits at the first such
element. -/
theorem split_at_first {β : Type} (p : β → Prop) (l : List β) (h : ∃ x ∈ l, p x) :
    ∃ pre e post, l = pre ++ e :: post ∧ (∀ x ∈ pre, ¬ p x) ∧ p e := by
  classical
  induction l with
  | nil => obtain ⟨x, hx, _⟩ := h; cases hx
  | cons a rest ih =>
    by_cases ha : p a
    · exact ⟨[], a, rest, rfl, by simp, ha⟩
    · have h2 : ∃ x ∈ rest, p x := by
        obtain ⟨x, hx, hp⟩ := h
        rcases List.mem_cons.1 hx with rfl | hx
        · exact absurd hp ha
        · exact ⟨x, hx, hp⟩
      obtain ⟨pre, e, post, hl, hpre, he⟩ := ih h2
      refine ⟨a :: pre, e, post, by simp [hl], ?_, he⟩
      intro x hx
      rcases List.mem_cons.1 hx with rfl | hx
      · exact ha
      · exact hpre x hx

/-! ## Traces -/

theorem loadsOf_append (a b : List Call) : loadsOf (a ++ b) = loadsOf a ++ loadsOf b := by
  induction a with
  | nil => rfl
  | cons c rest ih => cases c <;> simp [loadsOf, ih]

theorem visitsOf_append (a b : List Call) : visitsOf (a ++ b) = visitsOf a ++ visitsOf b := by
  induction a with
  | nil => rfl
  | cons c rest ih => cases c <;> simp [visitsOf, ih]

theorem loadsOf_visits (l : List event) : loadsOf (l.map visitOf) = [] := by
  induction l with
  | nil => rfl
  | cons e rest ih => simp [visitOf, loadsOf, ih]

theorem visitsOf_visits (l : List event) : visitsOf (l.map visitOf) = l.map tripleOf := by
  induction l with
  | nil => rfl
  | cons e rest ih => simp [visitOf, visitsOf, tripleOf, ih]

theorem tripleOf_toEvent (t : CStr × CStr × CStr) : tripleOf (toEvent t) = t := rfl

theorem map_tripleOf_toEvent (ts : List (CStr × CStr × CStr)) :
    (ts.map toEvent).map tripleOf = ts := by
  induction ts with
  | nil => rfl
  | cons t rest ih => simp only [List.map_cons, tripleOf_toEvent, ih]

theorem map_tripleOf_cache (ts : List (CStr × CStr × CStr)) :
    ((ts.map toEvent).reverse).map tripleOf = ts.reverse := by
  rw [List.map_reverse, map_tripleOf_toEvent]

theorem callsSince_of_trace (w w1 : World) (cs : List Call) (h : w1.trace = w.trace ++ cs) :
    callsSince w w1 = cs := by
  unfold callsSince
  rw [h]
  exact List.drop_left _ _

/-! ## Frame and trace of the loops -/

theorem resolve_loop_frame {α : Type} (enc : Encoder α) (name : CStr) (attr : α)
    (l : List event) (w : World) :
    (resolve_loop enc name attr l w).2.eventlist = w.eventlist
      ∧ ∃ cs, (resolve_loop enc name attr l w).2.trace = w.trace ++ cs ∧ loadsOf cs = [] := by
  induction l with
  | nil => exact ⟨rfl, [], by simp [resolve_loop], rfl⟩
  | cons e next ih =>
    by_cases he : strcasecmp e.name name = 0
    · rw [resolve_loop, if_pos he]
      exact ⟨rfl, [Call.encode e.event], rfl, rfl⟩
    · rw [resolve_loop, if_neg he]
      exact ih

theorem walk_loop_prefix {δ : Type} (func : Visitor δ) (l : List event) (data : δ) (w : World) :
    ∃ k, (walk_loop func l data w).2
      = { eventlist := w.eventlist, heap := w.heap,
          trace := w.trace ++ (l.take k).map visitOf } := by
  induction l generalizing data w with
  | nil => exact ⟨0, by simp [walk_loop]⟩
  | cons e next ih =>
    by_cases hr : (func data e.name e.event e.desc).1 = 0
    · obtain ⟨k, hk⟩ := ih (func data e.name e.event e.desc).2
        { eventlist := w.eventlist, heap := w.heap,
          trace := w.trace ++ [Call.visit e.name e.event e.desc] }
      refine ⟨k + 1, ?_⟩
      simp only [walk_loop, hr, ne_eq, not_true_eq_false, if_false]
      rw [hk]
      simp [visitOf]
    · refine ⟨1, ?_⟩
      simp [walk_loop, hr, visitOf]

theorem walk_loop_all {δ : Type} (func : Visitor δ)
    (hzero : ∀ d n e ds, (func d n e ds).1 = 0) (l : List event) (data : δ) (w : World) :
    (walk_loop func l data w).1.1 = 0
      ∧ (walk_loop func l data w).2
          = { eventlist := w.eventlist, heap := w.heap,
              trace := w.trace ++ l.map visitOf } := by
  induction l generalizing data w with
  | nil => simp [walk_loop]
  | cons e next ih =>
    have hr := hzero data e.name e.event e.desc
    obtain ⟨h1, h2⟩ := ih (func data e.name e.event e.desc).2
      { eventlist := w.eventlist, heap := w.heap,
        trace := w.trace ++ [Call.visit e.name e.event e.desc] }
    simp only [walk_loop, hr, ne_eq, not_true_eq_false, if_false]
    refine ⟨h1, ?_⟩
    rw [h2]
    simp [visitOf]

/-- A query on a loaded cache keeps the records and does not call the loader. -/
theorem query_loaded {α δ : Type} (L : Loader) (enc : Encoder α) (q : Query α δ) (w : World)
    (h : w.eventlist ≠ []) :
    (q.stateAfter L enc w).eventlist = w.eventlist
      ∧ ∃ cs, (q.stateAfter L enc w).trace = w.trace ++ cs ∧ loadsOf cs = [] := by
  cases q with
  | resolve name attr =>
    simp only [Query.stateAfter, resolve_event, if_neg h]
    exact resolve_loop_frame enc name attr w.eventlist w
  | walk func data =>
    simp only [Query.stateAfter, walk_events, if_neg h]
    obtain ⟨k, hk⟩ := walk_loop_prefix func w.eventlist data w
    rw [hk]
    exact ⟨rfl, _, rfl, loadsOf_visits _⟩
  | rmap code desc =>
    have hq : (Query.rmap code desc : Query α δ).stateAfter L enc w = w := by
      simp only [Query.stateAfter, rmap_event, if_neg h]
    rw [hq]
    exact ⟨rfl, [], by simp, rfl⟩

/-- A query on an empty cache calls the loader once, on the default source,
and leaves in the cache what that run collected. -/
theorem query_empty {α δ : Type} (L : Loader) (enc : Encoder α) (q : Query α δ) (w : World)
    (h : w.eventlist = []) :
    (q.stateAfter L enc w).eventlist = ((L none).emitted.map toEvent).reverse
      ∧ ∃ cs, (q.stateAfter L enc w).trace = w.trace ++ Call.load none :: cs
          ∧ loadsOf cs = [] := by
  have hl := read_events_eventlist L none w
  have ht := read_events_trace L none w
  cases q with
  | resolve name attr =>
    simp only [Query.stateAfter, resolve_event, if_pos h]
    by_cases hs : (read_events L none w).1 < 0
    · simp only [if_pos hs]
      exact ⟨hl, [], by simp [ht], rfl⟩
    · simp only [if_neg hs]
      obtain ⟨h1, cs, h2, h3⟩ :=
        resolve_loop_frame enc name attr (read_events L none w).2.eventlist
          (read_events L none w).2
      exact ⟨h1.trans hl, cs, by rw [h2, ht]; simp, h3⟩
  | walk func data =>
    simp only [Query.stateAfter, walk_events, if_pos h]
    by_cases hs : (read_events L none w).1 < 0
    · simp only [if_pos hs]
      exact ⟨hl, [], by simp [ht], rfl⟩
    · simp only [if_neg hs]
      obtain ⟨k, hk⟩ :=
        walk_loop_prefix func (read_events L none w).2.eventlist data (read_events L none w).2
      rw [hk]
      exact ⟨hl, ((read_events L none w).2.eventlist.take k).map visitOf,
        by simp only [ht]; simp, loadsOf_visits _⟩
  | rmap code desc =>
    simp only [Query.stateAfter, rmap_event, if_pos h]
    by_cases hs : (read_events L none w).1 < 0
    · simp only [if_pos hs]
      exact ⟨hl, [], by simp [ht], rfl⟩
    · simp only [if_neg hs]
      exact ⟨hl, [], by simp [ht], rfl⟩

/-! ## Walk -/

theorem walk_events_loaded {δ : Type} (L : Loader) (func : Visitor δ) (data : δ) (w : World)
    (h : w.eventlist ≠ []) :
    walk_events L func data w = walk_loop func w.eventlist data w := by
  simp only [walk_events, if_neg h]

theorem walk_events_lazy {δ : Type} (L : Loader) (func : Visitor δ) (data : δ) (w : World)
    (h : w.eventlist = []) (hs : ¬ (L none).status < 0) :
    walk_events L func data w
      = walk_loop func ((L none).emitted.map toEvent).reverse data (read_events L none w).2 := by
  have h1 : ¬ (read_events L none w).1 < 0 := by rw [read_events_status]; exact hs
  simp only [walk_events, if_pos h, if_neg h1, read_events_eventlist]

theorem walk_events_lazy_fail {δ : Type} (L : Loader) (func : Visitor δ) (data : δ) (w : World)
    (h : w.eventlist = []) (hs : (L none).status < 0) :
    walk_events L func data w = ((-1, data), (read_events L none w).2) := by
  have h1 : (read_events L none w).1 < 0 := by rw [read_events_status]; exact hs
  simp only [walk_events, if_pos h, if_pos h1]

/-- What the visitor sees during a walk comes from the cache, or from the
default catalog when the cache was empty. -/
theorem walk_events_visits_mem {δ : Type} (L : Loader) (func : Visitor δ) (data : δ)
    (w : World) (t : CStr × CStr × CStr)
    (ht : t ∈ visitsOf (callsSince w (walk_events L func data w).2)) :
    t ∈ (if w.eventlist = [] then (L none).emitted else w.eventlist.map tripleOf) := by
  by_cases h : w.eventlist = []
  · rw [if_pos h]
    by_cases hs : (L none).status < 0
    · rw [walk_events_lazy_fail L func data w h hs,
        callsSince_of_trace w _ [Call.load none] (read_events_trace L none w)] at ht
      simp [visitsOf] at ht
    · rw [walk_events_lazy L func data w h hs] at ht
      obtain ⟨k, hk⟩ := walk_loop_prefix func ((L none).emitted.map toEvent).reverse data
        (read_events L none w).2
      rw [hk, callsSince_of_trace w _
        (Call.load none :: ((((L none).emitted.map toEvent).reverse).take k).map visitOf)
        (by simp [read_events_trace])] at ht
      simp only [visitsOf, visitsOf_visits] at ht
      have h2 := List.mem_of_mem_take (List.map_take _ _ _ ▸ ht)
      rw [map_tripleOf_cache] at h2
      exact List.mem_reverse.1 h2
  · rw [if_neg h]
    rw [walk_events_loaded L func data w h] at ht
    obtain ⟨k, hk⟩ := walk_loop_prefix func w.eventlist data w
    rw [hk, callsSince_of_trace w _ ((w.eventlist.take k).map visitOf) rfl,
      visitsOf_visits] at ht
    exact List.mem_of_mem_take (List.map_take _ _ _ ▸ ht)

/-! ## Resolve -/

/-- C1: whenever some record of the cache has a name equal to `name` ignoring
ASCII case, `resolve_event` returns exactly the encoder's result (status and
attribute, failures included) on the encoded form of the first such record in
cache order, and the only external call it makes is that one call of the
encoder; the cache itself is unchanged. -/
theorem resolve_event_first_match {α : Type} (L : Loader) (enc : Encoder α) (name : CStr)
    (attr : α) (w : World) (h : ∃ e ∈ w.eventlist, eqIgnoreCase e.name name) :
    ∃ pre e post, w.eventlist = pre ++ e :: post
      ∧ (∀ x ∈ pre, ¬ eqIgnoreCase x.name name) ∧ eqIgnoreCase e.name name
      ∧ resolve_event L enc name attr w
          = (enc e.event attr,
              { eventlist := w.eventlist, heap := w.heap,
                trace := w.trace ++ [Call.encode e.event] }) := by
  obtain ⟨pre, e, post, hl, hpre, he⟩ :=
    split_at_first (fun x : event => eqIgnoreCase x.name name) w.eventlist h
  refine ⟨pre, e, post, hl, hpre, he, ?_⟩
  have hne : w.eventlist ≠ [] := by rw [hl]; simp
  unfold resolve_event
  rw [if_neg hne]
  conv => lhs; rw [hl]
  exact resolve_loop_first enc name attr pre e post w hpre he

theorem resolve_event_first_match_witness :
    (∃ e ∈ demoWorld.eventlist, eqIgnoreCase e.name (cstr "inst_retired.any"))
    ∧ ∃ pre e post, demoWorld.eventlist = pre ++ e :: post
      ∧ (∀ x ∈ pre, ¬ eqIgnoreCase x.name (cstr "inst_retired.any"))
      ∧ eqIgnoreCase e.name (cstr "inst_retired.any")
      ∧ resolve_event demoLoader demoEncoder (cstr "inst_retired.any") [] demoWorld
          = (demoEncoder e.event [],
              { eventlist := demoWorld.eventlist, heap := demoWorld.heap,
                trace := demoWorld.trace ++ [Call.encode e.event] }) :=
  ⟨⟨toEvent (cstr "INST_RETIRED.ANY", cstr "cpu/event=0xc0,umask=0x1/",
        cstr "Instructions retired"), by decide, by decide⟩,
   resolve_event_first_match demoLoader demoEncoder (cstr "inst_retired.any") [] demoWorld
    ⟨toEvent (cstr "INST_RETIRED.ANY", cstr "cpu/event=0xc0,umask=0x1/",
        cstr "Instructions retired"), by decide, by decide⟩⟩

/-- C9: two names that are equal ignoring ASCII letter case make the loop of
`resolve_event` accept the same first record, and `resolve_event` returns
the same status and attribute and leaves the same state for both (the
encoder being a function of its arguments).  This holds for every cache
state, loaded or not. -/
theorem resolve_event_case_insensitive {α : Type} (L : Loader) (enc : Encoder α)
    (n1 n2 : CStr) (attr : α) (w : World) (h : eqIgnoreCase n1 n2) :
    w.eventlist.find? (fun e => decide (strcasecmp e.name n1 = 0))
        = w.eventlist.find? (fun e => decide (strcasecmp e.name n2 = 0))
      ∧ resolve_event L enc n1 attr w = resolve_event L enc n2 attr w := by
  have key : ∀ s : CStr, strcasecmp s n1 = 0 ↔ strcasecmp s n2 = 0 := by
    intro s
    rw [strcasecmp_eq_zero_iff, strcasecmp_eq_zero_iff]
    exact ⟨fun hs => eqIgnoreCase_trans hs h,
      fun hs => eqIgnoreCase_trans hs (eqIgnoreCase_symm h)⟩
  have hloop : ∀ (l : List event) (v : World),
      resolve_loop enc n1 attr l v = resolve_loop enc n2 attr l v := by
    intro l v
    induction l with
    | nil => rfl
    | cons e next ih =>
      by_cases he : strcasecmp e.name n1 = 0
      · simp [resolve_loop, he, (key e.name).1 he]
      · have he2 : ¬ strcasecmp e.name n2 = 0 := fun h2 => he ((key e.name).2 h2)
        simp [resolve_loop, he, he2, ih]
  constructor
  · have hfun : (fun e : event => decide (strcasecmp e.name n1 = 0))
        = (fun e : event => decide (strcasecmp e.name n2 = 0)) := by
      funext e
      exact decide_eq_decide.2 (key e.name)
    rw [hfun]
  · unfold resolve_event
    simp only [hloop]

theorem resolve_event_case_insensitive_witness :
    eqIgnoreCase (cstr "inst_retired.any") (cstr "INST_RETIRED.ANY")
    ∧ (demoWorld.eventlist.find? (fun e => decide (strcasecmp e.name (cstr "inst_retired.any") = 0))
        = demoWorld.eventlist.find?
            (fun e => decide (strcasecmp e.name (cstr "INST_RETIRED.ANY") = 0))
      ∧ resolve_event demoLoader demoEncoder (cstr "inst_retired.any") [] demoWorld
          = resolve_event demoLoader demoEncoder (cstr "INST_RETIRED.ANY") [] demoWorld) :=
  ⟨by decide,
   resolve_event_case_insensitive demoLoader demoEncoder (cstr "inst_retired.any")
    (cstr "INST_RETIRED.ANY") [] demoWorld (by decide)⟩

/-- C10: on a loaded cache in which no record has a name equal to `name`
ignoring case, `resolve_event` returns -1, leaves the attribute untouched and
makes no external call at all (the state, trace included, is unchanged), so
the encoder is not invoked. -/
theorem resolve_event_not_found {α : Type} (L : Loader) (enc : Encoder α) (name : CStr)
    (attr : α) (w : World) (hloaded : w.eventlist ≠ [])
    (h : ∀ e ∈ w.eventlist, ¬ eqIgnoreCase e.name name) :
    resolve_event L enc name attr w = ((-1, attr), w) := by
  unfold resolve_event
  rw [if_neg hloaded]
  exact resolve_loop_none enc name attr w.eventlist w h

theorem resolve_event_not_found_witness :
    demoWorld.eventlist ≠ []
    ∧ (∀ e ∈ demoWorld.eventlist, ¬ eqIgnoreCase e.name (cstr "DOES_NOT_EXIST"))
    ∧ resolve_event demoLoader demoEncoder (cstr "DOES_NOT_EXIST") [] demoWorld
        = ((-1, []), demoWorld) :=
  ⟨by decide, by decide,
   resolve_event_not_found demoLoader demoEncoder (cstr "DOES_NOT_EXIST") [] demoWorld
    (by decide) (by decide)⟩

/-! ## Reverse map -/

/-- C2 (the code at the failing input): the cache holds one record, whose
encoded form is `cpu/event=0x2e,umask=0x41/` and whose combined code is
`0x412e`; `rmap_event` called with the code `0x412e` returns -1 and writes
neither output, since its test compares the parsed `event` with itself. -/
theorem rmap_event_misses_matching_code :
    singleWorld.eventlist ≠ []
    ∧ (∃ e ∈ singleWorld.eventlist, combined_code e = 0x412e &&& 0xffff)
    ∧ rmap_event demoLoader 0x412e true singleWorld = ((-1, none, none), singleWorld) := by
  decide

/-- C3 (the code at the failing input): in the cache loaded from
`demoCatalog` the names are pairwise distinct ignoring case and the combined
codes are pairwise distinct; the record `LONGEST_LAT_CACHE.MISS` has event
`0x2e` and umask `0x41`, `resolve_event` on its name returns the encoder's
result for its encoded form, but `rmap_event` on `(0x2e | (0x41 << 8)) & 0xffff`
returns -1 without a name, so the round trip cannot start. -/
theorem round_trip_fails_at_rmap_event :
    demoWorld.eventlist ≠ []
    ∧ demoWorld.eventlist.Pairwise (fun a b => ¬ eqIgnoreCase a.name b.name)
    ∧ demoWorld.eventlist.Pairwise (fun a b => combined_code a ≠ combined_code b)
    ∧ toEvent (cstr "LONGEST_LAT_CACHE.MISS", cstr "cpu/event=0x2e,umask=0x41/",
          cstr "Misses in the last level cache") ∈ demoWorld.eventlist
    ∧ extract_field (cstr "event=") (cstr "cpu/event=0x2e,umask=0x41/") = 0x2e
    ∧ extract_field (cstr "umask=") (cstr "cpu/event=0x2e,umask=0x41/") = 0x41
    ∧ (resolve_event demoLoader demoEncoder (cstr "LONGEST_LAT_CACHE.MISS") [] demoWorld).1
        = demoEncoder (cstr "cpu/event=0x2e,umask=0x41/") []
    ∧ (rmap_event demoLoader ((0x2e ||| (0x41 <<< 8)) &&& 0xffff) true demoWorld).1
        = (-1, none, none) := by
  decide

/-! ## Failed loads -/

/-- C4 (counterexample): the claim that a failed load which collected at
least one record leaves the cache empty fails for the loader that yields
`INST_RETIRED.ANY` and then returns -1, starting from the empty cache: the
record stays in `eventlist`. -/
theorem read_events_failed_load_counterexample :
    ¬ (∀ (L : Loader) (fn : Option CStr) (w : World),
        1 ≤ (L fn).emitted.length → (L fn).status < 0 →
          (read_events L fn w).1 = (L fn).status ∧ (read_events L fn w).2.eventlist = []) := by
  intro h
  have h1 := (h failingLoader none emptyWorld (by decide) (by decide)).2
  revert h1
  decide

/-- C4 (amended): when the loader hands `k ≥ 1` records to `collect_events`
and then returns a failure status, `read_events` returns that status and the
cache holds exactly those `k` records, latest first, whatever it held before;
the cache being non-empty, the next query operation makes no call of the
loader. -/
theorem read_events_failed_load_keeps_partial {α δ : Type} (L : Loader) (fn : Option CStr)
    (w : World) (L2 : Loader) (enc : Encoder α) (q : Query α δ)
    (hk : 1 ≤ (L fn).emitted.length) (hfail : (L fn).status < 0) :
    (read_events L fn w).1 = (L fn).status
      ∧ (read_events L fn w).2.eventlist = ((L fn).emitted.map toEvent).reverse
      ∧ (read_events L fn w).2.eventlist.length = (L fn).emitted.length
      ∧ (read_events L fn w).2.eventlist ≠ []
      ∧ loadsOf (callsSince (read_events L fn w).2
          (q.stateAfter L2 enc (read_events L fn w).2)) = [] := by
  have hl := read_events_eventlist L fn w
  have hne : (read_events L fn w).2.eventlist ≠ [] := by
    intro h0
    have h1 : (read_events L fn w).2.eventlist.length = (L fn).emitted.length := by
      rw [hl]; simp
    rw [h0] at h1
    simp at h1
    omega
  refine ⟨read_events_status L fn w, hl, by rw [hl]; simp, hne, ?_⟩
  obtain ⟨_, cs, h2, h3⟩ := query_loaded L2 enc q (read_events L fn w).2 hne
  rw [callsSince_of_trace _ _ cs h2]
  exact h3

theorem read_events_failed_load_keeps_partial_witness :
    (1 ≤ (failingLoader none).emitted.length ∧ (failingLoader none).status < 0)
    ∧ ((read_events failingLoader none demoWorld).1 = (failingLoader none).status
      ∧ (read_events failingLoader none demoWorld).2.eventlist
          = ((failingLoader none).emitted.map toEvent).reverse
      ∧ (read_events failingLoader none demoWorld).2.eventlist.length
          = (failingLoader none).emitted.length
      ∧ (read_events failingLoader none demoWorld).2.eventlist ≠ []
      ∧ loadsOf (callsSince (read_events failingLoader none demoWorld).2
          ((Query.walk countVisitor 0 : Query CStr Nat).stateAfter demoLoader demoEncoder
            (read_events failingLoader none demoWorld).2)) = []) :=
  ⟨⟨by decide, by decide⟩,
   read_events_failed_load_keeps_partial failingLoader none demoWorld demoLoader demoEncoder
    (Query.walk countVisitor 0) (by decide) (by decide)⟩

/-! ## Reload -/

/-- C5 (counterexample): the claim that a walk after a successful
`read_events(B)` shows the visitor only records of `B` fails when `B` is a
catalog without events (`empty.json`) and the default catalog is
`demoCatalog`: the cache is empty after the load, `walk_events` loads the
default catalog and the visitor receives `INST_RETIRED.ANY`, which `B` never
yielded. -/
theorem reload_then_walk_counterexample :
    ¬ (∀ (L : Loader) (fn : Option CStr) (w0 : World) (func : Visitor Nat) (data : Nat),
        (L fn).status = 0 →
          (read_events L fn w0).2.eventlist.Perm ((L fn).emitted.map toEvent)
          ∧ ∀ t ∈ visitsOf (callsSince (read_events L fn w0).2
                (walk_events L func data (read_events L fn w0).2).2),
              t ∈ (L fn).emitted) := by
  intro h
  have h1 := (h switchLoader (some (cstr "empty.json")) demoWorld countVisitor 0
    (by decide)).2
    (cstr "INST_RETIRED.ANY", cstr "cpu/event=0xc0,umask=0x1/", cstr "Instructions retired")
    (by decide)
  revert h1
  decide

/-- C5 (amended): after `read_events(B)` succeeds the cache holds exactly the
records the run of `B` yielded, each once (latest first) and nothing of the
prior state; a following `walk_events` passes only triples of `B` to the
visitor when `B` yielded at least one record, and only triples of the
default catalog when `B` yielded none. -/
theorem read_events_replaces {δ : Type} (L : Loader) (fn : Option CStr) (w0 : World)
    (func : Visitor δ) (data : δ) (hs : (L fn).status = 0) :
    (read_events L fn w0).1 = 0
      ∧ (read_events L fn w0).2.eventlist = ((L fn).emitted.map toEvent).reverse
      ∧ (read_events L fn w0).2.eventlist.Perm ((L fn).emitted.map toEvent)
      ∧ ∀ t ∈ visitsOf (callsSince (read_events L fn w0).2
            (walk_events L func data (read_events L fn w0).2).2),
          t ∈ (if (L fn).emitted = [] then (L none).emitted else (L fn).emitted) := by
  have hl := read_events_eventlist L fn w0
  refine ⟨by rw [read_events_status, hs], hl, by rw [hl]; exact List.reverse_perm _, ?_⟩
  intro t ht
  have h1 := walk_events_visits_mem L func data (read_events L fn w0).2 t ht
  rw [hl, map_tripleOf_cache] at h1
  by_cases he : (L fn).emitted = []
  · rw [if_pos he]
    simpa [he] using h1
  · rw [if_neg he]
    have he2 : ¬ ((L fn).emitted.map toEvent).reverse = [] := by simpa using he
    rw [if_neg he2] at h1
    exact List.mem_reverse.1 h1

theorem read_events_replaces_witness :
    (demoLoader (some (cstr "b.json"))).status = 0
    ∧ ((read_events demoLoader (some (cstr "b.json")) singleWorld).1 = 0
      ∧ (read_events demoLoader (some (cstr "b.json")) singleWorld).2.eventlist
          = ((demoLoader (some (cstr "b.json"))).emitted.map toEvent).reverse
      ∧ (read_events demoLoader (some (cstr "b.json")) singleWorld).2.eventlist.Perm
          ((demoLoader (some (cstr "b.json"))).emitted.map toEvent)
      ∧ ∀ t ∈ visitsOf (callsSince (read_events demoLoader (some (cstr "b.json")) singleWorld).2
            (walk_events demoLoader countVisitor 0
              (read_events demoLoader (some (cstr "b.json")) singleWorld).2).2),
          t ∈ (if (demoLoader (some (cstr "b.json"))).emitted = []
                then (demoLoader none).emitted
                else (demoLoader (some (cstr "b.json"))).emitted)) :=
  ⟨by decide,
   read_events_replaces demoLoader (some (cstr "b.json")) singleWorld countVisitor 0
    (by decide)⟩

/-! ## Full enumeration -/

/-- C6 (counterexample): the claim that a walk after the successful load of a
catalog of `N` records calls the visitor exactly `N` times fails for `N = 0`
when the catalog is a named file and the default catalog is `demoCatalog`:
after `read_events("empty.json")` the cache is empty, `walk_events` loads
the default catalog and calls the visitor twice. -/
theorem walk_events_full_enumeration_counterexample :
    ¬ (∀ (L : Loader) (fn : Option CStr) (w0 : World) (func : Visitor Nat) (data : Nat),
        (L fn).status = 0 → (∀ d n e ds, (func d n e ds).1 = 0) →
          (walk_events L func data (read_events L fn w0).2).1.1 = 0
          ∧ (visitsOf (callsSince (read_events L fn w0).2
                (walk_events L func data (read_events L fn w0).2).2)).length
              = (L fn).emitted.length
          ∧ (visitsOf (callsSince (read_events L fn w0).2
                (walk_events L func data (read_events L fn w0).2).2)).Perm (L fn).emitted) := by
  intro h
  have h1 := (h switchLoader (some (cstr "empty.json")) emptyWorld countVisitor 0
    (by decide) (fun _ _ _ _ => rfl)).2.1
  revert h1
  decide

/-- C6 (amended): let a catalog load successfully with `N` records, and let
either `N ≥ 1` and the cache hold those records as `collect_events` left
them, or the cache be empty and the catalog be the default one (which
`walk_events` then loads itself).  With a visitor that always returns 0,
`walk_events` returns 0 and calls the visitor exactly `N` times, once per
loaded record with that record's own triple (latest record first). -/
theorem walk_events_full_enumeration {δ : Type} (L : Loader) (fn : Option CStr) (w : World)
    (func : Visitor δ) (data : δ) (hzero : ∀ d n e ds, (func d n e ds).1 = 0)
    (hs : (L fn).status = 0)
    (hw : (w.eventlist = ((L fn).emitted.map toEvent).reverse ∧ (L fn).emitted ≠ [])
      ∨ (w.eventlist = [] ∧ fn = none)) :
    (walk_events L func data w).1.1 = 0
      ∧ visitsOf (callsSince w (walk_events L func data w).2) = (L fn).emitted.reverse
      ∧ (visitsOf (callsSince w (walk_events L func data w).2)).length
          = (L fn).emitted.length
      ∧ (visitsOf (callsSince w (walk_events L func data w).2)).Perm (L fn).emitted := by
  have key : (walk_events L func data w).1.1 = 0
      ∧ visitsOf (callsSince w (walk_events L func data w).2) = (L fn).emitted.reverse := by
    rcases hw with ⟨hl, hne⟩ | ⟨hl, hfn⟩
    · have hne2 : w.eventlist ≠ [] := by rw [hl]; simpa using hne
      rw [walk_events_loaded L func data w hne2]
      obtain ⟨h1, h2⟩ := walk_loop_all func hzero w.eventlist data w
      refine ⟨h1, ?_⟩
      rw [h2, callsSince_of_trace w _ (w.eventlist.map visitOf) rfl, visitsOf_visits, hl,
        map_tripleOf_cache]
    · subst hfn
      have hs2 : ¬ (L none).status < 0 := by rw [hs]; decide
      rw [walk_events_lazy L func data w hl hs2]
      obtain ⟨h1, h2⟩ := walk_loop_all func hzero ((L none).emitted.map toEvent).reverse data
        (read_events L none w).2
      refine ⟨h1, ?_⟩
      rw [h2, callsSince_of_trace w _
        (Call.load none :: (((L none).emitted.map toEvent).reverse).map visitOf)
        (by simp [read_events_trace])]
      simp only [visitsOf, visitsOf_visits, map_tripleOf_cache]
  refine ⟨key.1, key.2, ?_, ?_⟩
  · rw [key.2]; simp
  · rw [key.2]; exact List.reverse_perm _

theorem walk_events_full_enumeration_witness :
    ((∀ d n e ds, (countVisitor d n e ds).1 = 0) ∧ (demoLoader none).status = 0
      ∧ ((demoWorld.eventlist = ((demoLoader none).emitted.map toEvent).reverse
            ∧ (demoLoader none).emitted ≠ [])
          ∨ (demoWorld.eventlist = [] ∧ (none : Option CStr) = none)))
    ∧ ((walk_events demoLoader countVisitor 0 demoWorld).1.1 = 0
      ∧ visitsOf (callsSince demoWorld (walk_events demoLoader countVisitor 0 demoWorld).2)
          = (demoLoader none).emitted.reverse
      ∧ (visitsOf (callsSince demoWorld
            (walk_events demoLoader countVisitor 0 demoWorld).2)).length
          = (demoLoader none).emitted.length
      ∧ (visitsOf (callsSince demoWorld
            (walk_events demoLoader countVisitor 0 demoWorld).2)).Perm
          (demoLoader none).emitted) :=
  ⟨⟨fun _ _ _ _ => rfl, by decide, Or.inl ⟨by decide, by decide⟩⟩,
   walk_events_full_enumeration demoLoader none demoWorld countVisitor 0
    (fun _ _ _ _ => rfl) (by decide) (Or.inl ⟨by decide, by decide⟩)⟩

/-! ## Duplicate names -/

/-- C7 (counterexample): the claim that a duplicated name resolves to the
record the catalog emitted first fails for `dupCatalog`, which emits
`BR_MISP_RETIRED.ALL` (`umask=0x0`) and then `br_misp_retired.all`
(`umask=0x4`): `resolve_event` never passes the encoded form of the first
one to the encoder. -/
theorem resolve_event_duplicate_counterexample :
    ¬ (∀ (L : Loader) (fn : Option CStr) (w0 : World) (enc : Encoder CStr) (name attr : CStr)
        (pre : List (CStr × CStr × CStr)) (r : CStr × CStr × CStr)
        (post : List (CStr × CStr × CStr)),
        (L fn).status = 0 → (L fn).emitted = pre ++ r :: post →
        (∀ x ∈ pre, ¬ eqIgnoreCase x.1 name) → eqIgnoreCase r.1 name →
        (∃ x ∈ post, eqIgnoreCase x.1 name) →
          Call.encode r.2.1 ∈ callsSince (read_events L fn w0).2
            (resolve_event L enc name attr (read_events L fn w0).2).2) := by
  intro h
  have h1 := h dupLoader none emptyWorld demoEncoder (cstr "BR_MISP_RETIRED.ALL") [] []
    (cstr "BR_MISP_RETIRED.ALL", cstr "cpu/event=0xc5,umask=0x0/", cstr "emitted first")
    [(cstr "br_misp_retired.all", cstr "cpu/event=0xc5,umask=0x4/", cstr "emitted second")]
    (by decide) (by decide) (by decide) (by decide) (by decide)
  revert h1
  decide

/-- C7 (amended): when a catalog emits records whose names are equal to
`name` ignoring case, after the load `resolve_event` on that name passes to
the encoder the encoded form of the record the catalog emitted last among
them, makes no other external call and returns the encoder's result. -/
theorem resolve_event_duplicate_last_emitted {α : Type} (L : Loader) (fn : Option CStr)
    (w0 : World) (enc : Encoder α) (name : CStr) (attr : α)
    (pre : List (CStr × CStr × CStr)) (r : CStr × CStr × CStr)
    (post : List (CStr × CStr × CStr))
    (hs : (L fn).status = 0) (hsplit : (L fn).emitted = pre ++ r :: post)
    (hr : eqIgnoreCase r.1 name) (hpost : ∀ x ∈ post, ¬ eqIgnoreCase x.1 name) :
    resolve_event L enc name attr (read_events L fn w0).2
      = (enc r.2.1 attr,
          { eventlist := (read_events L fn w0).2.eventlist,
            heap := (read_events L fn w0).2.heap,
            trace := (read_events L fn w0).2.trace ++ [Call.encode r.2.1] }) := by
  have hl : (read_events L fn w0).2.eventlist
      = (post.map toEvent).reverse ++ toEvent r :: (pre.map toEvent).reverse := by
    rw [read_events_eventlist, hsplit]
    simp
  have hne : (read_events L fn w0).2.eventlist ≠ [] := by rw [hl]; simp
  unfold resolve_event
  rw [if_neg hne]
  conv => lhs; rw [hl]
  refine resolve_loop_first enc name attr _ (toEvent r) _ (read_events L fn w0).2 ?_ hr
  intro x hx
  obtain ⟨t, ht, rfl⟩ := List.mem_map.1 (List.mem_reverse.1 hx)
  exact hpost t ht

theorem resolve_event_duplicate_last_emitted_witness :
    ((dupLoader none).status = 0
      ∧ (dupLoader none).emitted
          = [(cstr "BR_MISP_RETIRED.ALL", cstr "cpu/event=0xc5,umask=0x0/",
                cstr "emitted first")]
            ++ (cstr "br_misp_retired.all", cstr "cpu/event=0xc5,umask=0x4/",
                cstr "emitted second") :: []
      ∧ eqIgnoreCase (cstr "br_misp_retired.all") (cstr "BR_MISP_RETIRED.ALL")
      ∧ ∀ x ∈ ([] : List (CStr × CStr × CStr)), ¬ eqIgnoreCase x.1 (cstr "BR_MISP_RETIRED.ALL"))
    ∧ resolve_event dupLoader demoEncoder (cstr "BR_MISP_RETIRED.ALL") []
        (read_events dupLoader none emptyWorld).2
      = (demoEncoder (cstr "cpu/event=0xc5,umask=0x4/") [],
          { eventlist := (read_events dupLoader none emptyWorld).2.eventlist,
            heap := (read_events dupLoader none emptyWorld).2.heap,
            trace := (read_events dupLoader none emptyWorld).2.trace
              ++ [Call.encode (cstr "cpu/event=0xc5,umask=0x4/")] }) :=
  ⟨⟨by decide, by decide, by decide, by decide⟩,
   resolve_event_duplicate_last_emitted dupLoader none emptyWorld demoEncoder
    (cstr "BR_MISP_RETIRED.ALL") []
    [(cstr "BR_MISP_RETIRED.ALL", cstr "cpu/event=0xc5,umask=0x0/", cstr "emitted first")]
    (cstr "br_misp_retired.all", cstr "cpu/event=0xc5,umask=0x4/", cstr "emitted second") []
    (by decide) (by decide) (by decide) (by decide)⟩

/-! ## Lazy load -/

/-- C8 (counterexample): the claim that a second query never calls the loader
fails for the default catalog without events: starting from the empty cache
with `emptyLoader`, `rmap_event` loads once, the cache stays empty, and a
second `rmap_event` calls the loader again. -/
theorem lazy_load_idempotent_counterexample :
    ¬ (∀ (L : Loader) (enc : Encoder CStr) (q1 q2 : Query CStr Nat) (w : World),
        w.eventlist = [] →
          (loadsOf (callsSince w (q1.stateAfter L enc w))).length = 1
          ∧ (loadsOf (callsSince (q1.stateAfter L enc w)
                (q2.stateAfter L enc (q1.stateAfter L enc w)))).length = 0) := by
  intro h
  have h1 := (h emptyLoader demoEncoder (Query.rmap 0 false) (Query.rmap 0 false) emptyWorld
    (by decide)).2
  revert h1
  decide

/-- C8 (amended): starting from an empty cache, the first query operation
(`resolve_event`, `walk_events` or `rmap_event`) calls the loader exactly
once, on the default source; a second query operation calls it zero times
when that load yielded at least one record, and once more when it yielded
none. -/
theorem lazy_load_once {α δ : Type} (L : Loader) (enc : Encoder α) (q1 q2 : Query α δ)
    (w : World) (h : w.eventlist = []) :
    loadsOf (callsSince w (q1.stateAfter L enc w)) = [none]
      ∧ loadsOf (callsSince (q1.stateAfter L enc w)
            (q2.stateAfter L enc (q1.stateAfter L enc w)))
          = (if (L none).emitted = [] then [none] else []) := by
  obtain ⟨hl, cs, h2, h3⟩ := query_empty L enc q1 w h
  constructor
  · rw [callsSince_of_trace w _ (Call.load none :: cs) h2]
    simp [loadsOf, h3]
  · by_cases he : (L none).emitted = []
    · rw [if_pos he]
      have hl2 : (q1.stateAfter L enc w).eventlist = [] := by rw [hl, he]; rfl
      obtain ⟨_, cs2, h4, h5⟩ := query_empty L enc q2 (q1.stateAfter L enc w) hl2
      rw [callsSince_of_trace _ _ (Call.load none :: cs2) h4]
      simp [loadsOf, h5]
    · rw [if_neg he]
      have hl2 : (q1.stateAfter L enc w).eventlist ≠ [] := by rw [hl]; simpa using he
      obtain ⟨_, cs2, h4, h5⟩ := query_loaded L enc q2 (q1.stateAfter L enc w) hl2
      rw [callsSince_of_trace _ _ cs2 h4]
      exact h5

theorem lazy_load_once_witness :
    emptyWorld.eventlist = []
    ∧ (loadsOf (callsSince emptyWorld
          ((Query.resolve (cstr "INST_RETIRED.ANY") [] : Query CStr Nat).stateAfter
            demoLoader demoEncoder emptyWorld)) = [none]
      ∧ loadsOf (callsSince
            ((Query.resolve (cstr "INST_RETIRED.ANY") [] : Query CStr Nat).stateAfter
              demoLoader demoEncoder emptyWorld)
            ((Query.walk countVisitor 0 : Query CStr Nat).stateAfter demoLoader demoEncoder
              ((Query.resolve (cstr "INST_RETIRED.ANY") [] : Query CStr Nat).stateAfter
                demoLoader demoEncoder emptyWorld)))
          = (if (demoLoader none).emitted = [] then [none] else [])) :=
  ⟨by decide,
   lazy_load_once demoLoader demoEncoder (Query.resolve (cstr "INST_RETIRED.ANY") [])
    (Query.walk countVisitor 0) emptyWorld (by decide)⟩

/-! ## Reverse map: the code argument -/

theorem rmap_match_code_irrelevant (c1 c2 : Nat) (e : event) :
    rmap_match c1 e = rmap_match c2 e := rfl

theorem rmap_loop_code_irrelevant (c1 c2 : Nat) (desc : Bool) (l : List event) :
    rmap_loop c1 desc l = rmap_loop c2 desc l := by
  induction l with
  | nil => rfl
  | cons e next ih => simp only [rmap_loop, rmap_match_code_irrelevant c1 c2 e, ih]

/-- C11 (the code at the failing input): the cache holds one record, whose
encoded form is `cpu/event=0xc4,umask=0x0/` and whose combined code is
`0xc4`; no record has the combined code `0xFFFF`, yet `rmap_event(0xFFFF)`
returns 0 and outputs that record's name and description. -/
theorem rmap_event_finds_without_match :
    branchWorld.eventlist ≠ []
    ∧ (∀ e ∈ branchWorld.eventlist, combined_code e ≠ 0xFFFF &&& 0xffff)
    ∧ rmap_event demoLoader 0xFFFF true branchWorld
        = ((0, some (cstr "BR_INST_RETIRED.ALL_BRANCHES"), some (cstr "Branches retired")),
            branchWorld) := by
  decide

/-- C15: the outcome of `rmap_event` does not depend on its code argument:
for every cache state, loader behaviour and pair of codes, the two calls
return the same status, write the same name and description and leave the
same state. -/
theorem rmap_event_code_irrelevant (L : Loader) (c1 c2 : Nat) (desc : Bool) (w : World) :
    rmap_event L c1 desc w = rmap_event L c2 desc w := by
  unfold rmap_event
  simp only [rmap_loop_code_irrelevant c1 c2]

/-! ## Failing lazy load -/

/-- C13: starting from an empty cache with a loader that returns a negative
status for the default catalog, `resolve_event`, `walk_events` and
`rmap_event` each return -1; the only external call each makes is the one
call of the loader, so the encoder and the visitor are not invoked, the
attribute and the visitor's data are untouched, and `rmap_event` writes
neither output. -/
theorem queries_fail_when_lazy_load_fails {α δ : Type} (L : Loader) (enc : Encoder α)
    (name : CStr) (attr : α) (func : Visitor δ) (data : δ) (code : Nat) (desc : Bool)
    (w : World) (hempty : w.eventlist = []) (hfail : (L none).status < 0) :
    (resolve_event L enc name attr w).1 = (-1, attr)
      ∧ callsSince w (resolve_event L enc name attr w).2 = [Call.load none]
      ∧ (walk_events L func data w).1 = (-1, data)
      ∧ callsSince w (walk_events L func data w).2 = [Call.load none]
      ∧ (rmap_event L code desc w).1 = (-1, none, none)
      ∧ callsSince w (rmap_event L code desc w).2 = [Call.load none] := by
  have h1 : (read_events L none w).1 < 0 := by rw [read_events_status]; exact hfail
  have ht := callsSince_of_trace w _ [Call.load none] (read_events_trace L none w)
  have hr : resolve_event L enc name attr w = ((-1, attr), (read_events L none w).2) := by
    simp only [resolve_event, if_pos hempty, if_pos h1]
  have hw : walk_events L func data w = ((-1, data), (read_events L none w).2) := by
    simp only [walk_events, if_pos hempty, if_pos h1]
  have hm : rmap_event L code desc w = ((-1, none, none), (read_events L none w).2) := by
    simp only [rmap_event, if_pos hempty, if_pos h1]
  rw [hr, hw, hm]
  exact ⟨rfl, ht, rfl, ht, rfl, ht⟩

theorem queries_fail_when_lazy_load_fails_witness :
    (emptyWorld.eventlist = [] ∧ (failingLoader none).status < 0)
    ∧ ((resolve_event failingLoader demoEncoder (cstr "INST_RETIRED.ANY") [] emptyWorld).1
          = (-1, [])
      ∧ callsSince emptyWorld
          (resolve_event failingLoader demoEncoder (cstr "INST_RETIRED.ANY") [] emptyWorld).2
          = [Call.load none]
      ∧ (walk_events failingLoader countVisitor 0 emptyWorld).1 = (-1, 0)
      ∧ callsSince emptyWorld (walk_events failingLoader countVisitor 0 emptyWorld).2
          = [Call.load none]
      ∧ (rmap_event failingLoader 0xc0 true emptyWorld).1 = (-1, none, none)
      ∧ callsSince emptyWorld (rmap_event failingLoader 0xc0 true emptyWorld).2
          = [Call.load none]) :=
  ⟨⟨by decide, by decide⟩,
   queries_fail_when_lazy_load_fails failingLoader demoEncoder (cstr "INST_RETIRED.ANY") []
    countVisitor 0 0xc0 true emptyWorld (by decide) (by decide)⟩

/-! ## Reload trigger -/

/-- C14: for every cache state and every source (a file name or NULL),
`read_events` calls the loader exactly once, with that source, makes no
other external call, and returns exactly the status the loader returned. -/
theorem read_events_calls_loader_once (L : Loader) (fn : Option CStr) (w : World) :
    callsSince w (read_events L fn w).2 = [Call.load fn]
      ∧ loadsOf (callsSince w (read_events L fn w).2) = [fn]
      ∧ (read_events L fn w).1 = (L fn).status := by
  have ht := callsSince_of_trace w _ [Call.load fn] (read_events_trace L fn w)
  refine ⟨ht, ?_, read_events_status L fn w⟩
  rw [ht]
  rfl

/-! ## Queries are read-only -/

/-- C17: on a non-empty cache, `resolve_event`, `rmap_event` and
`walk_events` (whose visitor acts on its own data only) leave the sequence
of records unchanged and make no call of the loader. -/
theorem queries_read_only_on_loaded_cache {α δ : Type} (L : Loader) (enc : Encoder α)
    (name : CStr) (attr : α) (func : Visitor δ) (data : δ) (code : Nat) (desc : Bool)
    (w : World) (hloaded : w.eventlist ≠ []) :
    ((resolve_event L enc name attr w).2.eventlist = w.eventlist
        ∧ loadsOf (callsSince w (resolve_event L enc name attr w).2) = [])
      ∧ ((rmap_event L code desc w).2.eventlist = w.eventlist
        ∧ loadsOf (callsSince w (rmap_event L code desc w).2) = [])
      ∧ ((walk_events L func data w).2.eventlist = w.eventlist
        ∧ loadsOf (callsSince w (walk_events L func data w).2) = []) := by
  have key : ∀ q : Query α δ, (q.stateAfter L enc w).eventlist = w.eventlist
      ∧ loadsOf (callsSince w (q.stateAfter L enc w)) = [] := by
    intro q
    obtain ⟨h1, cs, h2, h3⟩ := query_loaded L enc q w hloaded
    exact ⟨h1, by rw [callsSince_of_trace w _ cs h2]; exact h3⟩
  exact ⟨key (Query.resolve name attr), key (Query.rmap code desc), key (Query.walk func data)⟩

theorem queries_read_only_on_loaded_cache_witness :
    demoWorld.eventlist ≠ []
    ∧ (((resolve_event demoLoader demoEncoder (cstr "inst_retired.any") [] demoWorld).2.eventlist
          = demoWorld.eventlist
        ∧ loadsOf (callsSince demoWorld
            (resolve_event demoLoader demoEncoder (cstr "inst_retired.any") [] demoWorld).2) = [])
      ∧ ((rmap_event demoLoader 0x412e true demoWorld).2.eventlist = demoWorld.eventlist
        ∧ loadsOf (callsSince demoWorld (rmap_event demoLoader 0x412e true demoWorld).2) = [])
      ∧ ((walk_events demoLoader countVisitor 0 demoWorld).2.eventlist = demoWorld.eventlist
        ∧ loadsOf (callsSince demoWorld (walk_events demoLoader countVisitor 0 demoWorld).2)
            = [])) :=
  ⟨by decide,
   queries_read_only_on_loaded_cache demoLoader demoEncoder (cstr "inst_retired.any") []
    countVisitor 0 0x412e true demoWorld (by decide)⟩

/-! ## Clear -/

/-- C18: `free_events` is defined on every cache state and leaves the cache
empty; applied a second time it changes nothing, so
`free_events (free_events w) = free_events w` and both are empty. -/
theorem free_events_idempotent (w : World) :
    (free_events w).eventlist = []
      ∧ (free_events (free_events w)).eventlist = []
      ∧ free_events (free_events w) = free_events w := by
  refine ⟨rfl, rfl, ?_⟩
  simp [free_events, free_loop]

/-! ## Early abort of a walk -/

theorem walk_loop_abort {δ : Type} (func : Visitor δ) (pre : List event) (e : event)
    (post : List event) (data d : δ) (w : World)
    (hzero : zeroRun func pre data = some d) (hr : (func d e.name e.event e.desc).1 ≠ 0) :
    walk_loop func (pre ++ e :: post) data w
      = (func d e.name e.event e.desc,
          { eventlist := w.eventlist, heap := w.heap,
            trace := w.trace ++ (pre ++ [e]).map visitOf }) := by
  induction pre generalizing data w with
  | nil =>
    simp only [zeroRun, Option.some.injEq] at hzero
    subst hzero
    simp [walk_loop, hr, visitOf]
  | cons x rest ih =>
    by_cases hx : (func data x.name x.event x.desc).1 = 0
    · simp only [zeroRun, hx, if_true] at hzero
      have hstep := ih (func data x.name x.event x.desc).2
        { eventlist := w.eventlist, heap := w.heap,
          trace := w.trace ++ [Call.visit x.name x.event x.desc] } hzero
      rw [List.cons_append, walk_loop]
      simp only [hx, ne_eq, not_true_eq_false, if_false]
      rw [hstep]
      simp [visitOf]
    · simp [zeroRun, hx] at hzero

/-- C12: on a loaded cache, if the visitor returns 0 on the first `k - 1`
records in cache order and a non-zero value `r` on the `k`-th, then
`walk_events` returns exactly `r` (with the visitor's data as that call left
it), the visitor has been called exactly `k` times, on the first `k` records
in order, and on no record after the `k`-th; nothing else is called. -/
theorem walk_events_early_abort {δ : Type} (L : Loader) (func : Visitor δ) (data d : δ)
    (w : World) (pre : List event) (e : event) (post : List event)
    (hsplit : w.eventlist = pre ++ e :: post)
    (hzero : zeroRun func pre data = some d) (hr : (func d e.name e.event e.desc).1 ≠ 0) :
    (walk_events L func data w).1 = func d e.name e.event e.desc
      ∧ callsSince w (walk_events L func data w).2 = (pre ++ [e]).map visitOf
      ∧ visitsOf (callsSince w (walk_events L func data w).2) = (pre ++ [e]).map tripleOf
      ∧ (visitsOf (callsSince w (walk_events L func data w).2)).length = pre.length + 1 := by
  have hne : w.eventlist ≠ [] := by rw [hsplit]; simp
  have hwalk : walk_events L func data w
      = (func d e.name e.event e.desc,
          { eventlist := w.eventlist, heap := w.heap,
            trace := w.trace ++ (pre ++ [e]).map visitOf }) := by
    rw [walk_events_loaded L func data w hne]
    conv => lhs; rw [hsplit]
    exact walk_loop_abort func pre e post data d w hzero hr
  have hc : callsSince w (walk_events L func data w).2 = (pre ++ [e]).map visitOf := by
    rw [hwalk]
    exact callsSince_of_trace w _ _ rfl
  refine ⟨by rw [hwalk], hc, ?_, ?_⟩
  · rw [hc, visitsOf_visits]
  · rw [hc, visitsOf_visits]
    simp

theorem walk_events_early_abort_witness :
    (threeWorld.eventlist
        = [toEvent (cstr "BR_INST_RETIRED.ALL_BRANCHES", cstr "cpu/event=0xc4,umask=0x0/",
            cstr "Branches retired")]
          ++ toEvent (cstr "INST_RETIRED.ANY", cstr "cpu/event=0xc0,umask=0x1/",
              cstr "Instructions retired")
            :: [toEvent (cstr "LONGEST_LAT_CACHE.MISS", cstr "cpu/event=0x2e,umask=0x41/",
                cstr "Misses in the last level cache")]
      ∧ zeroRun (stopAt 2)
          [toEvent (cstr "BR_INST_RETIRED.ALL_BRANCHES", cstr "cpu/event=0xc4,umask=0x0/",
            cstr "Branches retired")] 0 = some 1
      ∧ (stopAt 2 1 (cstr "INST_RETIRED.ANY") (cstr "cpu/event=0xc0,umask=0x1/")
          (cstr "Instructions retired")).1 ≠ 0)
    ∧ (walk_events threeLoader (stopAt 2) 0 threeWorld).1 = (7, 2)
    ∧ (visitsOf (callsSince threeWorld
        (walk_events threeLoader (stopAt 2) 0 threeWorld).2)).length = 2 :=
  have h := walk_events_early_abort threeLoader (stopAt 2) 0 1 threeWorld
    [toEvent (cstr "BR_INST_RETIRED.ALL_BRANCHES", cstr "cpu/event=0xc4,umask=0x0/",
      cstr "Branches retired")]
    (toEvent (cstr "INST_RETIRED.ANY", cstr "cpu/event=0xc0,umask=0x1/",
      cstr "Instructions retired"))
    [toEvent (cstr "LONGEST_LAT_CACHE.MISS", cstr "cpu/event=0x2e,umask=0x41/",
      cstr "Misses in the last level cache")]
    (by decide) (by decide) (by decide)
  ⟨⟨by decide, by decide, by decide⟩, h.1, h.2.2.2⟩

/-! ## Cache order -/

/-- With a visitor that always returns 0, a walk visits the whole cache in
cache order, which is the reverse of the order of emission. -/
theorem walk_events_zero_visits {δ : Type} (L : Loader) (fn : Option CStr) (w : World)
    (func : Visitor δ) (data : δ) (hzero : ∀ d n e ds, (func d n e ds).1 = 0)
    (hs : (L fn).status = 0)
    (hw : (w.eventlist = ((L fn).emitted.map toEvent).reverse ∧ (L fn).emitted ≠ [])
      ∨ (w.eventlist = [] ∧ fn = none)) :
    visitsOf (callsSince w (walk_events L func data w).2) = (L fn).emitted.reverse := by
  rcases hw with ⟨hl, hne⟩ | ⟨hl, hfn⟩
  · have hne2 : w.eventlist ≠ [] := by rw [hl]; simpa using hne
    rw [walk_events_loaded L func data w hne2]
    obtain ⟨_, h2⟩ := walk_loop_all func hzero w.eventlist data w
    rw [h2, callsSince_of_trace w _ (w.eventlist.map visitOf) rfl, visitsOf_visits, hl,
      map_tripleOf_cache]
  · subst hfn
    have hs2 : ¬ (L none).status < 0 := by rw [hs]; decide
    rw [walk_events_lazy L func data w hl hs2]
    obtain ⟨_, h2⟩ := walk_loop_all func hzero ((L none).emitted.map toEvent).reverse data
      (read_events L none w).2
    rw [h2, callsSince_of_trace w _
      (Call.load none :: (((L none).emitted.map toEvent).reverse).map visitOf)
      (by simp [read_events_trace])]
    simp only [visitsOf, visitsOf_visits, map_tripleOf_cache]

/-- C16 (counterexample): the claim that a walk after the successful load of
`r1, ..., rN` into an empty cache shows the visitor `rN, ..., r1` fails for
`N = 0` when the catalog is a named file and the default catalog is
`demoCatalog`: after `read_events("empty.json")` the cache is still empty,
`walk_events` loads the default catalog and the visitor receives its two
records. -/
theorem cache_order_counterexample :
    ¬ (∀ (L : Loader) (fn : Option CStr) (w0 : World) (func : Visitor Nat) (data : Nat),
        w0.eventlist = [] → (L fn).status = 0 → (∀ d n e ds, (func d n e ds).1 = 0) →
          visitsOf (callsSince (read_events L fn w0).2
              (walk_events L func data (read_events L fn w0).2).2)
            = (L fn).emitted.reverse) := by
  intro h
  have h1 := h switchLoader (some (cstr "empty.json")) emptyWorld countVisitor 0
    (by decide) (by decide) (fun _ _ _ _ => rfl)
  revert h1
  decide

/-- C16 (amended): let the successful load of a catalog into an empty cache
emit `r1, ..., rN`, where `N ≥ 1` or the catalog is the default one (`N = 0`
included).  Then `walk_events` with a visitor that always returns 0 passes
the triples to the visitor in the order `rN, ..., r1`: there are exactly `N`
visits, and the visit number `i` (from 0) receives the record emitted at
position `N - 1 - i`. -/
theorem walk_events_reverse_emission_order {δ : Type} (L : Loader) (fn : Option CStr)
    (w0 : World) (func : Visitor δ) (data : δ)
    (hempty : w0.eventlist = []) (hs : (L fn).status = 0)
    (hzero : ∀ d n e ds, (func d n e ds).1 = 0)
    (hN : (L fn).emitted ≠ [] ∨ fn = none) :
    visitsOf (callsSince (read_events L fn w0).2
        (walk_events L func data (read_events L fn w0).2).2) = (L fn).emitted.reverse
      ∧ (visitsOf (callsSince (read_events L fn w0).2
          (walk_events L func data (read_events L fn w0).2).2)).length
        = (L fn).emitted.length
      ∧ ∀ i : Nat,
          (visitsOf (callsSince (read_events L fn w0).2
            (walk_events L func data (read_events L fn w0).2).2))[i]?
          = (if i < (L fn).emitted.length
              then (L fn).emitted[(L fn).emitted.length - 1 - i]? else none) := by
  have hl := read_events_eventlist L fn w0
  have hw : ((read_events L fn w0).2.eventlist = ((L fn).emitted.map toEvent).reverse
        ∧ (L fn).emitted ≠ [])
      ∨ ((read_events L fn w0).2.eventlist = [] ∧ fn = none) := by
    by_cases he : (L fn).emitted = []
    · rcases hN with hne | hfn
      · exact absurd he hne
      · exact Or.inr ⟨by rw [hl, he]; rfl, hfn⟩
    · exact Or.inl ⟨hl, he⟩
  have key := walk_events_zero_visits L fn (read_events L fn w0).2 func data hzero hs hw
  refine ⟨key, by rw [key]; simp, ?_⟩
  intro i
  rw [key]
  by_cases hi : i < (L fn).emitted.length
  · rw [if_pos hi]
    exact List.getElem?_reverse hi
  · rw [if_neg hi]
    exact List.getElem?_eq_none (by simpa using Nat.le_of_not_lt hi)

theorem walk_events_reverse_emission_order_witness :
    ((emptyWorld.eventlist = [] ∧ (threeLoader (some (cstr "three.json"))).status = 0
        ∧ (∀ d n e ds, (countVisitor d n e ds).1 = 0)
        ∧ ((threeLoader (some (cstr "three.json"))).emitted ≠ []
            ∨ some (cstr "three.json") = none))
      ∧ (visitsOf (callsSince (read_events threeLoader (some (cstr "three.json")) emptyWorld).2
            (walk_events threeLoader countVisitor 0
              (read_events threeLoader (some (cstr "three.json")) emptyWorld).2).2)
          = (threeLoader (some (cstr "three.json"))).emitted.reverse
        ∧ (visitsOf (callsSince
            (read_events threeLoader (some (cstr "three.json")) emptyWorld).2
            (walk_events threeLoader countVisitor 0
              (read_events threeLoader (some (cstr "three.json")) emptyWorld).2).2)).length
          = (threeLoader (some (cstr "three.json"))).emitted.length
        ∧ ∀ i : Nat,
            (visitsOf (callsSince
              (read_events threeLoader (some (cstr "three.json")) emptyWorld).2
              (walk_events threeLoader countVisitor 0
                (read_events threeLoader (some (cstr "three.json")) emptyWorld).2).2))[i]?
            = (if i < (threeLoader (some (cstr "three.json"))).emitted.length
                then (threeLoader (some (cstr "three.json"))).emitted[
                  (threeLoader (some (cstr "three.json"))).emitted.length - 1 - i]?
                else none)))
    ∧ ((emptyWorld.eventlist = [] ∧ (emptyLoader none).status = 0
        ∧ (∀ d n e ds, (countVisitor d n e ds).1 = 0)
        ∧ ((emptyLoader none).emitted ≠ [] ∨ (none : Option CStr) = none))
      ∧ (visitsOf (callsSince (read_events emptyLoader none emptyWorld).2
            (walk_events emptyLoader countVisitor 0
              (read_events emptyLoader none emptyWorld).2).2)
          = (emptyLoader none).emitted.reverse
        ∧ (visitsOf (callsSince (read_events emptyLoader none emptyWorld).2
            (walk_events emptyLoader countVisitor 0
              (read_events emptyLoader none emptyWorld).2).2)).length
          = (emptyLoader none).emitted.length
        ∧ ∀ i : Nat,
            (visitsOf (callsSince (read_events emptyLoader none emptyWorld).2
              (walk_events emptyLoader countVisitor 0
                (read_events emptyLoader none emptyWorld).2).2))[i]?
            = (if i < (emptyLoader none).emitted.length
                then (emptyLoader none).emitted[(emptyLoader none).emitted.length - 1 - i]?
                else none))) :=
  ⟨⟨⟨by decide, by decide, fun _ _ _ _ => rfl, Or.inl (by decide)⟩,
    walk_events_reverse_emission_order threeLoader (some (cstr "three.json")) emptyWorld
      countVisitor 0 (by decide) (by decide) (fun _ _ _ _ => rfl) (Or.inl (by decide))⟩,
   ⟨⟨by decide, by decide, fun _ _ _ _ => rfl, Or.inr rfl⟩,
    walk_events_reverse_emission_order emptyLoader none emptyWorld
      countVisitor 0 (by decide) (by decide) (fun _ _ _ _ => rfl) (Or.inr rfl)⟩⟩

/-! ## Heap blocks -/

theorem json_loop_collect_heap (ts : List (CStr × CStr × CStr)) (st : Int) (w : World) :
    (json_loop collect_events ts st w).2.heap
      = heapOf (ts.map toEvent).reverse ++ w.heap := by
  have happ : ∀ (a : List event) (e : event), heapOf (a ++ [e]) = heapOf a ++ blocksOf e := by
    intro a e
    induction a with
    | nil => simp [heapOf]
    | cons x rest ih => simp [heapOf, ih]
  induction ts generalizing w with
  | nil => simp [json_loop, heapOf]
  | cons t rest ih =>
    obtain ⟨n, e, d⟩ := t
    simp [json_loop, collect_events, ih, toEvent, happ, blocksOf]

theorem free_loop_heapOf (l : List event) (pre rest : List Block)
    (hpre : Block.node ∉ pre) :
    free_loop l (pre ++ heapOf l ++ rest) = pre ++ leakOf l ++ rest := by
  induction l generalizing pre with
  | nil => simp [free_loop, heapOf, leakOf]
  | cons e next ih =>
    have h1 : (pre ++ heapOf (e :: next) ++ rest).erase Block.node
        = (pre ++ stringsOf e) ++ heapOf next ++ rest := by
      have h2 : Block.node ∉ pre ++ stringsOf e := by
        simp [stringsOf, hpre]
      have h3 : pre ++ heapOf (e :: next) ++ rest
          = (pre ++ stringsOf e) ++ (Block.node :: (heapOf next ++ rest)) := by
        simp [heapOf, blocksOf, stringsOf]
      rw [h3, List.erase_append_right _ h2, List.erase_cons_head]
      simp
    have h4 : Block.node ∉ pre ++ stringsOf e := by
      simp [stringsOf, hpre]
    rw [free_loop, h1, ih (pre ++ stringsOf e) h4]
    simp [leakOf]

/-- C19 (the code at the failing input): a cache populated by
`collect_events` from the empty state owns, per record, one node and three
string copies; `free_events` (alone, or at the start of a reload) releases
the nodes only, so all the string copies stay allocated.  For the two
records of `demoCatalog` six blocks are still live after `free_events`, and
still live after a reload from a catalog without events. -/
theorem free_events_leaks_strings (L : Loader) (fn : Option CStr) :
    (read_events L fn emptyWorld).2.heap = heapOf (read_events L fn emptyWorld).2.eventlist
      ∧ (free_events (read_events L fn emptyWorld).2).heap
          = leakOf (read_events L fn emptyWorld).2.eventlist
      ∧ (free_events demoWorld).heap
          = [Block.str (cstr "cpu/event=0xc0,umask=0x1/"),
             Block.str (cstr "Instructions retired"), Block.str (cstr "INST_RETIRED.ANY"),
             Block.str (cstr "cpu/event=0x2e,umask=0x41/"),
             Block.str (cstr "Misses in the last level cache"),
             Block.str (cstr "LONGEST_LAT_CACHE.MISS")]
      ∧ (read_events emptyLoader (some (cstr "empty.json")) demoWorld).2.eventlist = []
      ∧ (read_events emptyLoader (some (cstr "empty.json")) demoWorld).2.heap
          = (free_events demoWorld).heap := by
  have hheap : (read_events L fn emptyWorld).2.heap
      = heapOf (read_events L fn emptyWorld).2.eventlist := by
    rw [read_events_eventlist]
    unfold read_events json_events
    rw [json_loop_collect_heap]
    simp [emptyWorld]
  refine ⟨hheap, ?_, by decide, by decide, by decide⟩
  have h := free_loop_heapOf (read_events L fn emptyWorld).2.eventlist [] [] (by simp)
  simp only [List.nil_append, List.append_nil] at h
  simp only [free_events, hheap, h]

end Jevents
